
import Mathlib

/-!
Verification model of the MemoryPilot retrieval and maintenance core
(Rust sources: db.rs, embedding.rs, gc.rs, graph.rs, tools.rs, watcher.rs).

Shallow-embedding conventions, kept uniform through the file:

* Rust f64 score arithmetic is modelled exactly over the rationals by
  unnormalised integer fractions (structure Frac below); every operation
  the source performs on scores (addition, multiplication, comparison,
  rounding half away from zero) has a Frac counterpart.
* Unicode character classes used by the source (is_alphanumeric,
  is_uppercase, to_lowercase, is_whitespace) are modelled by their ASCII
  restrictions; all concrete data in the development is ASCII except
  where a multi-byte character is the point, and there only byte widths
  matter, which Char.utf8Size models faithfully.
* SQLite tables are lists of records.  The FTS5 index is maintained by
  the source in lockstep with the memories table; its match-and-bm25
  behaviour is abstracted by an oracle function passed to search.  The
  f32 hashed TF-IDF embedder is likewise abstracted by an oracle passed
  to the write paths; nothing proved here depends on its values.
* UUID generation is modelled by a fresh counter carried in the store.
* RFC3339 timestamps are strings; SQLite compares TEXT columns bytewise,
  modelled by lexicographic comparison on the character lists.
-/

set_option maxRecDepth 100000

namespace MemoryPilot

instance [DecidableEq ε] [DecidableEq α] : DecidableEq (Except ε α) := fun x y =>
  match x, y with
  | Except.error a, Except.error b =>
    if h : a = b then isTrue (by rw [h]) else isFalse (fun hh => h (Except.error.inj hh))
  | Except.ok a, Except.ok b =>
    if h : a = b then isTrue (by rw [h]) else isFalse (fun hh => h (Except.ok.inj hh))
  | Except.error _, Except.ok _ => isFalse (fun hh => Except.noConfusion hh)
  | Except.ok _, Except.error _ => isFalse (fun hh => Except.noConfusion hh)

/-! ## ASCII character classes (Rust char classes restricted to ASCII) -/

def isWsA (c : Char) : Bool :=
  c = ' ' || c = '\t' || c = '\n' || c = '\r' || c.toNat = 11 || c.toNat = 12

def isDigitA (c : Char) : Bool := '0' ≤ c && c ≤ '9'

def isLowerA (c : Char) : Bool := 'a' ≤ c && c ≤ 'z'

def isUpperA (c : Char) : Bool := 'A' ≤ c && c ≤ 'Z'

def isAlnumA (c : Char) : Bool := isLowerA c || isUpperA c || isDigitA c

def toLowerA (c : Char) : Char :=
  if isUpperA c then Char.ofNat (c.toNat + 32) else c

def lowerL (l : List Char) : List Char := l.map toLowerA

/-! ## Generic list helpers used throughout the model -/

/-- Rust str::split_whitespace on a character list: maximal non-whitespace
runs, empty pieces dropped.  The accumulator holds the current run reversed. -/
def splitWsGo (cur : List Char) : List Char → List (List Char)
  | [] => if cur.isEmpty then [] else [cur.reverse]
  | c :: rest =>
    if isWsA c then
      if cur.isEmpty then splitWsGo [] rest else cur.reverse :: splitWsGo [] rest
    else splitWsGo (c :: cur) rest

def splitWsL (l : List Char) : List (List Char) := splitWsGo [] l

/-- Rust str::trim restricted to ASCII whitespace. -/
def trimL (l : List Char) : List Char :=
  ((l.dropWhile isWsA).reverse.dropWhile isWsA).reverse

/-- Rust str::trim_matches with a character predicate. -/
def trimMatchesL (p : Char → Bool) (l : List Char) : List Char :=
  ((l.dropWhile p).reverse.dropWhile p).reverse

/-- Does the first list start with the second one? -/
def startsWithL : List Char → List Char → Bool
  | _, [] => true
  | [], _ :: _ => false
  | c :: cs, d :: ds => c = d && startsWithL cs ds

/-- Rust str::contains for a substring needle. -/
def containsSubL : List Char → List Char → Bool
  | [], needle => needle.isEmpty
  | h :: t, needle => startsWithL (h :: t) needle || containsSubL t needle

/-- Byte width of a character under UTF-8, as Rust str indexing counts. -/
def byteSize (c : Char) : Nat := c.utf8Size

/-- Rust str::len: byte length of the UTF-8 encoding. -/
def byteLenL (l : List Char) : Nat := l.foldl (fun n c => n + byteSize c) 0

/-- Rust str::find for a substring needle: byte offset of the first
occurrence, if any. -/
def findSubB : List Char → List Char → Option Nat
  | [], needle => if needle.isEmpty then some 0 else none
  | h :: t, needle =>
    if startsWithL (h :: t) needle then some 0
    else (findSubB t needle).map (fun i => i + byteSize h)

/-- Rust byte slicing s[..n]: some prefix when byte index n lands on a
character boundary, none when the slice would panic. -/
def sliceBytesOpt : List Char → Nat → Option (List Char)
  | _, 0 => some []
  | [], _ + 1 => none
  | c :: rest, n + 1 =>
    if byteSize c ≤ n + 1 then
      (sliceBytesOpt rest (n + 1 - byteSize c)).map (fun l => c :: l)
    else none

/-- Keep the first occurrence of each element (HashSet-backed dedup). -/
def dedupFirstGo [DecidableEq α] (seen : List α) : List α → List α
  | [] => []
  | x :: xs =>
    if seen.contains x then dedupFirstGo seen xs
    else x :: dedupFirstGo (x :: seen) xs

def dedupFirst [DecidableEq α] (l : List α) : List α := dedupFirstGo [] l

/-- Stable insertion used by the model sort: x goes before the first y
with le x y.  With a non-strict comparator this is a stable sort. -/
def insertOrd (le : α → α → Bool) (x : α) : List α → List α
  | [] => [x]
  | y :: ys => if le x y then x :: y :: ys else y :: insertOrd le x ys

/-- Stable insertion sort; models ORDER BY (tie order unspecified in SQL,
fixed deterministically here) and Vec::sort_by. -/
def sortByB (le : α → α → Bool) : List α → List α
  | [] => []
  | x :: xs => insertOrd le x (sortByB le xs)

/-! ## Exact fraction arithmetic (model of the f64 score computations) -/

/-- Unnormalised integer fraction.  Every constructor used in the model
keeps the denominator positive, so the bool comparisons below agree with
the rational order. -/
structure Frac where
  num : Int
  den : Int
  deriving Repr, DecidableEq

def fo (n : Int) : Frac := ⟨n, 1⟩

def fadd (a b : Frac) : Frac := ⟨a.num * b.den + b.num * a.den, a.den * b.den⟩

def fmul (a b : Frac) : Frac := ⟨a.num * b.num, a.den * b.den⟩

def fleB (a b : Frac) : Bool := decide (a.num * b.den ≤ b.num * a.den)

def fltB (a b : Frac) : Bool := decide (a.num * b.den < b.num * a.den)

/-- Rational value of a fraction, for statements that relate the model to
exact arithmetic. -/
def Frac.val (f : Frac) : ℚ := (f.num : ℚ) / (f.den : ℚ)

/-- Rounding half away from zero of n / d for positive d, as f64::round
behaves; used for the four-decimal rounding of search scores. -/
def roundAway (n d : Int) : Int :=
  if 0 ≤ n then (2 * n + d) / (2 * d) else -((2 * (-n) + d) / (2 * d))

/-- (score * 10000).round() / 10000.0 from the search path. -/
def roundTo4 (f : Frac) : Frac := ⟨roundAway (f.num * 10000) f.den, 10000⟩

/-! ## Watcher model (watcher.rs)

FileWatcherState.recent_changes is a bounded deque of FileChange records;
get_boost_keywords walks each stored filename. -/

structure FileChange where
  path : String
  filename : String
  timestamp : String
  deriving Repr, DecidableEq

/-- filename.split(dot).next(): the portion of the filename before the
first dot. -/
def stemOf (filename : String) : List Char :=
  filename.data.takeWhile (fun c => c ≠ '.')

/-- One step of the character loop in get_boost_keywords: state is
(finished words, current word). -/
def boostStep (st : List (List Char) × List Char) (ch : Char) :
    List (List Char) × List Char :=
  if isAlnumA ch then
    if isUpperA ch && !st.2.isEmpty then (st.1 ++ [st.2], [ch])
    else (st.1, st.2 ++ [ch])
  else if !st.2.isEmpty then (st.1 ++ [st.2], [])
  else st

/-- Words produced from one stem by the loop in get_boost_keywords,
including the final flush of the pending word. -/
def stemWords (stem : List Char) : List (List Char) :=
  let st := stem.foldl boostStep ([], [])
  st.1 ++ (if st.2.isEmpty then [] else [st.2])

/-- FileWatcherState::get_boost_keywords: all words of all stored
filenames, in deque order. -/
def getBoostKeywords (cs : List FileChange) : List String :=
  cs.flatMap (fun c => (stemWords (stemOf c.filename)).map (fun w => String.mk w))

/-- Recursive restatement of the boost-keyword loop, used as a bridge for
the declarative characterisation. -/
def specGo (cur : List Char) : List Char → List (List Char)
  | [] => if cur.isEmpty then [] else [cur]
  | c :: rest =>
    if isAlnumA c then
      if isUpperA c && !cur.isEmpty then cur :: specGo [c] rest
      else specGo (cur ++ [c]) rest
    else if cur.isEmpty then specGo [] rest
    else cur :: specGo [] rest

/-- Glue of the declarative splitter: how an open token cur combines with
the tokens ts of the remaining characters l.  A nonempty open token is
extended by the first token of l when l goes on with an alphanumeric
non-uppercase character, and is closed otherwise. -/
def mergeHead (cur : List Char) (l : List Char) (ts : List (List Char)) :
    List (List Char) :=
  if cur.isEmpty then ts
  else
    match l with
    | d :: _ =>
      if isAlnumA d && !isUpperA d then
        match ts with
        | t :: tl => (cur ++ t) :: tl
        | [] => [cur]
      else cur :: ts
    | [] => cur :: ts

/-- Declarative splitter: an alphanumeric character merges into the token
that follows it unless that token starts with an uppercase letter; every
non-alphanumeric character is a separator.  Equivalently: the stem is cut
at every non-alphanumeric character and in addition before every
uppercase character. -/
def declTokens : List Char → List (List Char)
  | [] => []
  | c :: rest =>
    if isAlnumA c then mergeHead [c] rest (declTokens rest)
    else declTokens rest

/-- Modelled from the spec and claim wording: tokens obtained by splitting
the stem at non-alphanumeric characters and at lowercase-to-uppercase
boundaries only (an uppercase letter opens a new token exactly when the
preceding character is a lowercase letter). -/
def claimGo (cur : List Char) : List Char → List (List Char)
  | [] => if cur.isEmpty then [] else [cur]
  | c :: rest =>
    if isAlnumA c then
      if isUpperA c &&
          (match cur.getLast? with
           | some d => isLowerA d
           | none => false) then
        cur :: claimGo [c] rest
      else claimGo (cur ++ [c]) rest
    else if cur.isEmpty then claimGo [] rest
    else cur :: claimGo [] rest

/-- Keyword projection as the claim words it. -/
def claimKeywords (cs : List FileChange) : List String :=
  cs.flatMap (fun c => (claimGo [] (stemOf c.filename)).map (fun w => String.mk w))

/-! ## GC merge model (gc.rs)

merge_memories condenses a group of contents into one summary string.
Byte-slicing a bullet at a non-boundary index panics in Rust; the model
returns Except.error there. -/

def stopwords : List String :=
  ["the", "this", "that", "with", "from", "have", "been", "will",
   "should", "would", "could", "when", "where", "what", "which",
   "their", "there", "they", "them", "then", "than", "these",
   "those", "into", "some", "such", "also", "does",
   "done", "each", "just", "like", "make", "made", "more",
   "most", "much", "need", "only", "over", "very", "well",
   "about", "after", "again", "being", "other", "using",
   "dans", "pour", "avec", "cette", "sont", "mais", "plus",
   "tout", "tous", "toute", "comme", "faire", "fait", "peut",
   "sans", "encore", "entre", "aussi", "autre", "avant"]

def isStopword (w : String) : Bool := stopwords.contains w

/-- Distinct keywords of one document, in order of first occurrence:
split on whitespace, trim non-alphanumeric edges, lowercase, keep words
longer than 3 bytes that are not stopwords. -/
def keywordsOfDoc (c : String) : List String :=
  dedupFirst ((splitWsL c.data).filterMap (fun w =>
    let w' := lowerL (trimMatchesL (fun ch => !isAlnumA ch) w)
    if byteLenL w' > 3 && !isStopword (String.mk w') then some (String.mk w')
    else none))

/-- Document-frequency accumulation (HashMap modelled in first-insertion
order). -/
def bumpCount : List (String × Nat) → String → List (String × Nat)
  | [], w => [(w, 1)]
  | (k, n) :: rest, w =>
    if k = w then (k, n + 1) :: rest else (k, n) :: bumpCount rest w

def wordFreq (contents : List String) : List (String × Nat) :=
  contents.foldl (fun m c => (keywordsOfDoc c).foldl bumpCount m) []

/-- Keywords sorted by document frequency, descending and stable. -/
def topWords (contents : List String) : List (String × Nat) :=
  sortByB (fun a b => decide (b.2 ≤ a.2)) (wordFreq contents)

def joinStr (sep : String) : List String → String
  | [] => ""
  | x :: xs => xs.foldl (fun acc y => acc ++ sep ++ y) x

/-- The top-5 subject keywords joined by commas. -/
def subjectOf (contents : List String) : String :=
  joinStr ", " (((topWords contents).take 5).map (fun p => p.1))

def kindLabel (kind : String) : String :=
  if kind = "bug" then "Bugs"
  else if kind = "snippet" then "Code snippets"
  else if kind = "note" then "Notes"
  else if kind = "todo" then "TODOs"
  else "Items"

/-- Leading project marker of the merged summary. -/
def projMark : Option String → String
  | some p => "[" ++ p ++ "] "
  | none => ""

def digitChar (n : Nat) : Char := Char.ofNat (48 + n)

def natDigitsGo : Nat → Nat → List Char
  | 0, _ => []
  | fuel + 1, n => if n = 0 then [] else natDigitsGo fuel (n / 10) ++ [digitChar (n % 10)]

def natToStr (n : Nat) : String :=
  if n = 0 then "0" else String.mk (natDigitsGo (n + 1) n)

/-- One bullet: first sentence of the trimmed content, or its first 120
bytes; error models the Rust panic when byte index 120 is not a
character boundary. -/
def bulletOf (c : String) : Except Unit (Option String) :=
  let t := trimL c.data
  let endB :=
    match findSubB t (". ").data with
    | some i => i + 1
    | none => min (byteLenL t) 120
  match sliceBytesOpt t endB with
  | none => Except.error ()
  | some sentence =>
    Except.ok (if byteLenL sentence > 5 then some ("- " ++ String.mk sentence) else none)

/-- Lazy take(8) over the bullet iterator: contents after the eighth
produced bullet are never evaluated. -/
def bulletsGo : List String → Nat → Except Unit (List String)
  | _, 0 => Except.ok []
  | [], _ + 1 => Except.ok []
  | c :: rest, n + 1 =>
    match bulletOf c with
    | Except.error e => Except.error e
    | Except.ok none => bulletsGo rest (n + 1)
    | Except.ok (some b) => (bulletsGo rest n).map (fun bs => b :: bs)

/-- gc::merge_memories.  A single content is returned unchanged;
otherwise the summary is assembled from the project marker, the kind
label, the top-5 subject keywords and up to 8 first-sentence bullets. -/
def mergeMemoriesE (contents : List String) (kind : String)
    (proj : Option String) : Except Unit String :=
  match contents with
  | [c] => Except.ok c
  | _ =>
    (bulletsGo contents 8).map (fun bullets =>
      projMark proj ++ "[MERGED] " ++ kindLabel kind ++ " related to: " ++
      subjectOf contents ++ ". (" ++ natToStr contents.length ++
      " items compressed)\n" ++ joinStr "\n" bullets)

/-! ## Knowledge-graph model (graph.rs) -/

def techList : List String :=
  ["svelte", "sveltekit", "svelte 5", "react", "vue", "next", "nuxt", "astro",
   "supabase", "firebase", "postgresql", "sqlite", "redis", "mongodb",
   "tailwind", "css", "sass", "bootstrap",
   "rust", "typescript", "javascript", "python", "swift", "go", "java",
   "cloudflare", "vercel", "netlify", "aws", "hetzner", "docker",
   "stripe", "auth", "jwt", "oauth", "better-auth",
   "onnx", "bert", "openai", "claude", "llm", "mcp",
   "tauri", "electron", "flutter", "xcode",
   "git", "github", "npm", "cargo", "pnpm"]

def componentHints : List String :=
  ["component", "page", "layout", "modal", "button", "form", "input",
   "header", "footer", "sidebar", "nav", "card", "table", "dialog",
   "dashboard", "settings", "profile", "auth", "login", "signup"]

/-- graph::lower_contains_near: the two needles occur within the given
byte distance of each other in the text. -/
def lowerContainsNear (text a b : List Char) (dist : Nat) : Bool :=
  match findSubB text a, findSubB text b with
  | some pa, some pb => decide ((if pa > pb then pa - pb else pb - pa) ≤ dist)
  | _, _ => false

/-- One dedup-checked insertion into the entity accumulator: state is
(seen keys, entities so far). -/
def entPush (st : List String × List (String × String)) (key : String)
    (kind value : String) : List String × List (String × String) :=
  if st.1.contains key then st else (key :: st.1, st.2 ++ [(kind, value)])

/-- graph::extract_entities: project hint, tech keywords, file-like
tokens, and component names near a component hint word, deduplicated by
kind and lowercased value in emission order. -/
def extractEntities (content : String) (proj : Option String) :
    List (String × String) :=
  let lower := lowerL content.data
  let words := splitWsL content.data
  let st0 : List String × List (String × String) := ([], [])
  let st1 :=
    match proj with
    | some p => entPush st0 ("project:" ++ String.mk (lowerL p.data)) "project" p
    | none => st0
  let st2 := techList.foldl (fun st tech =>
    if containsSubL lower tech.data then
      entPush st ("tech:" ++ tech) "tech" tech
    else st) st1
  let st3 := words.foldl (fun st word =>
    let w := trimMatchesL (fun c =>
      !(isAlnumA c || c = '/' || c = '.' || c = '_' || c = '-')) word
    let st' :=
      if w.contains '/' && w.contains '.' && decide (byteLenL w > 4) then
        entPush st ("file:" ++ String.mk (lowerL w)) "file" (String.mk w)
      else st
    if (startsWithL w.reverse ".svelte".data.reverse ||
        startsWithL w.reverse ".ts".data.reverse ||
        startsWithL w.reverse ".tsx".data.reverse ||
        startsWithL w.reverse ".rs".data.reverse ||
        startsWithL w.reverse ".py".data.reverse ||
        startsWithL w.reverse ".js".data.reverse) &&
        decide (byteLenL w > 4) && !(startsWithL w ['.']) then
      entPush st' ("file:" ++ String.mk (lowerL w)) "file" (String.mk w)
    else st') st2
  let st4 := componentHints.foldl (fun st hint =>
    if containsSubL lower hint.data then
      words.foldl (fun st word =>
        let w := trimMatchesL (fun c => !(isAlnumA c || c = '-' || c = '_')) word
        if decide (byteLenL w > 2) &&
            ((match w.head? with
              | some c => isUpperA c
              | none => false) || w.contains '-' || w.contains '_') &&
            lowerContainsNear lower hint.data (lowerL w) 50 then
          entPush st ("component:" ++ String.mk (lowerL w)) "component" (String.mk w)
        else st) st
    else st) st3
  st4.2

/-- graph::infer_relation, with the Rust match arms in order. -/
def inferRelation (s t : String) : String :=
  if (s = "bug" && t = "decision") || (s = "bug" && t = "architecture") then "resolved_by"
  else if s = "decision" && t = "bug" then "resolves"
  else if s = "bug" && t = "snippet" then "fixed_by"
  else if s = "snippet" && t = "bug" then "fixes"
  else if (s = "decision" && t = "architecture") || (s = "decision" && t = "pattern") then "implements"
  else if s = "architecture" && t = "decision" then "decided_by"
  else if s = "todo" then "depends_on"
  else if t = "todo" then "blocks"
  else "relates_to"

/-! ## Store model (db.rs)

Tables are lists; timestamps and expiry stamps are strings compared
bytewise as SQLite compares TEXT.  The FTS index mirrors the memories
table in the source (written on insert and update, deleted on delete and
sweep); it is abstracted here by the bm25 oracle given to search, which
is applied only to live rows.  The f32 embedder is the ef oracle. -/

structure Memory where
  id : Nat
  content : String
  kind : String
  project : Option String
  tags : List String
  source : String
  importance : Int
  expiresAt : Option String
  metadata : Option String
  embedding : Option (List Frac)
  createdAt : String
  updatedAt : String
  lastAccessedAt : Option String
  accessCount : Int
  deriving Repr, DecidableEq

structure Link where
  src : Nat
  tgt : Nat
  rel : String
  deriving Repr, DecidableEq

structure Store where
  memories : List Memory
  links : List Link
  entities : List (Nat × String × String)
  nextId : Nat
  deriving Repr, DecidableEq

/-- Bytewise text comparison, as SQLite orders TEXT (UTF-8 byte order and
codepoint order coincide). -/
def charsLtB : List Char → List Char → Bool
  | [], [] => false
  | [], _ :: _ => true
  | _ :: _, [] => false
  | a :: as, b :: bs => if a = b then charsLtB as bs else decide (a < b)

def strLtB (a b : String) : Bool := charsLtB a.data b.data

def strLeB (a b : String) : Bool := !strLtB b a

/-- Rust i32::clamp(1, 5). -/
def clampI (i : Int) : Int := if i < 1 then 1 else if 5 < i then 5 else i

/-- Rust i32::max. -/
def maxI (a b : Int) : Int := if a < b then b else a

/-- Database::normalize: lowercase, non-alphanumeric to space, collapse
whitespace. -/
def joinWords : List (List Char) → List Char
  | [] => []
  | w :: ws => ws.foldl (fun acc v => acc ++ ' ' :: v) w

def normalizeStr (s : String) : String :=
  String.mk (joinWords (splitWsL ((lowerL s.data).map
    (fun c => if isAlnumA c || c = ' ' then c else ' '))))

/-- Database::similarity: word-level Jaccard similarity between two
normalized strings, as an exact fraction. -/
def similarityF (a b : String) : Frac :=
  let aw := dedupFirst (splitWsL a.data)
  let bw := dedupFirst (splitWsL b.data)
  if aw.isEmpty && bw.isEmpty then fo 1
  else
    let inter := (aw.filter (fun w => bw.contains w)).length
    let union := aw.length + (bw.filter (fun w => !aw.contains w)).length
    if union = 0 then fo 0 else ⟨inter, union⟩

/-- Is the similarity at least the dedup threshold 0.85? -/
def dupHitB (norm : String) (m : Memory) : Bool :=
  fleB ⟨85, 100⟩ (similarityF norm (normalizeStr m.content))

def scopeEqB (proj : Option String) (m : Memory) : Bool :=
  match proj with
  | some p => m.project == some p
  | none => m.project == none

/-- Database::find_duplicate: among the 200 most recently updated rows of
the same project scope, the first one in scan order whose normalized
Jaccard similarity reaches 0.85. -/
def findDuplicate (db : Store) (content : String) (proj : Option String) :
    Option Memory :=
  let norm := normalizeStr content
  ((sortByB (fun a b => strLeB b.updatedAt a.updatedAt)
    (db.memories.filter (scopeEqB proj))).take 200).find? (dupHitB norm)

def getMemory (db : Store) (id : Nat) : Option Memory :=
  db.memories.find? (fun m => m.id == id)

/-- INSERT OR IGNORE into memory_links on the (source, target) key. -/
def insertLinkIg (ls : List Link) (l : Link) : List Link :=
  if ls.any (fun x => x.src == l.src && x.tgt == l.tgt) then ls else ls ++ [l]

/-- Database::rebuild_links: rewrite the entity rows of the memory,
collect up to 10 related memories per entity through shared entity
values, and rewrite its link rows in both directions.  Only the entity
and link tables change. -/
def rebuildLinks (db : Store) (mem : Memory) : Store :=
  let ents := extractEntities mem.content mem.project
  let entities1 := db.entities.filter (fun e => !(e.1 == mem.id)) ++
    ents.map (fun e => (mem.id, e.1, e.2))
  let targets := dedupFirst (ents.flatMap (fun e =>
    (dedupFirst ((entities1.filter (fun r => r.2.2 == e.2 && !(r.1 == mem.id))).filterMap
      (fun r => (db.memories.find? (fun m => m.id == r.1)).map
        (fun m => (m.id, m.kind))))).take 10))
  let cleared := db.links.filter (fun l => !(l.src == mem.id) && !(l.tgt == mem.id))
  let links1 := targets.foldl (fun acc p =>
    insertLinkIg (insertLinkIg acc ⟨mem.id, p.1, inferRelation mem.kind p.2⟩)
      ⟨p.1, mem.id, inferRelation p.2 mem.kind⟩) cleared
  { db with entities := entities1, links := links1 }

/-- Database::update_memory_full: partial update of one row.  Present
fields replace (importance clamped, expires_at replaced exactly when the
argument is present, including an empty string), absent fields preserve;
updated_at is bumped, the embedding recomputed, the FTS row rewritten in
lockstep, and the graph rebuilt. -/
def updateMemoryFull (ef : String → List Frac) (db : Store) (now : String)
    (id : Nat) (content? kind? : Option String) (tags? : Option (List String))
    (imp? : Option Int) (exp? : Option String) : Option Memory × Store :=
  match getMemory db id with
  | none => (none, db)
  | some existing =>
    let newContent := content?.getD existing.content
    let newKind := kind?.getD existing.kind
    let newTags := tags?.getD existing.tags
    let newImp := clampI (imp?.getD existing.importance)
    let newExp := if exp?.isSome then exp? else existing.expiresAt
    let emb := ef newContent
    let mem : Memory :=
      { existing with
          content := newContent
          kind := newKind
          tags := newTags
          importance := newImp
          expiresAt := newExp
          updatedAt := now
          embedding := some emb }
    let db1 : Store :=
      { db with
          memories := db.memories.map (fun m =>
            if m.id == id then
              { m with
                  content := newContent
                  kind := newKind
                  tags := newTags
                  importance := newImp
                  expiresAt := newExp
                  updatedAt := now
                  embedding := some emb }
            else m) }
    (some mem, rebuildLinks db1 mem)

/-- Tag merge of the dedup path: existing tags first, then the new tags
not already present. -/
def mergeTags (existing new : List String) : List String :=
  new.foldl (fun acc t => if acc.contains t then acc else acc ++ [t]) existing

structure AddOut where
  mem : Memory
  merged : Bool
  store : Store
  deriving Repr, DecidableEq

/-- Database::add_memory: dedup scan, then either merge into the found
duplicate (longer content, max importance, tag union, new expiry when
provided) or insert a fresh row.  Uuid::new_v4 is modelled by the fresh
counter. -/
def addMemory (ef : String → List Frac) (db : Store) (now : String)
    (content kind : String) (proj : Option String) (tags : List String)
    (source : String) (importance : Int) (exp? : Option String)
    (meta : Option String) : AddOut :=
  match findDuplicate db content proj with
  | some existing =>
    let newContent :=
      if decide (byteLenL content.data > byteLenL existing.content.data)
      then content else existing.content
    let newImp := maxI importance existing.importance
    let mergedTags := mergeTags existing.tags tags
    let r := updateMemoryFull ef db now existing.id (some newContent) none
      (some mergedTags) (some newImp) exp?
    ⟨r.1.getD existing, true, r.2⟩
  | none =>
    let mem : Memory :=
      { id := db.nextId, content := content, kind := kind, project := proj,
        tags := tags, source := source, importance := clampI importance,
        expiresAt := exp?, metadata := meta, embedding := some (ef content),
        createdAt := now, updatedAt := now, lastAccessedAt := none,
        accessCount := 0 }
    let db1 : Store :=
      { db with memories := db.memories ++ [mem], nextId := db.nextId + 1 }
    ⟨mem, false, rebuildLinks db1 mem⟩

/-- Is the row logically dead at the given time?  SQLite evaluates
expires_at IS NOT NULL AND expires_at < now bytewise on the text. -/
def isExpiredB (now : String) (m : Memory) : Bool :=
  match m.expiresAt with
  | some e => strLtB e now
  | none => false

/-- Database::cleanup_expired: delete the FTS rows, then the memory rows
whose expiry stamp sorts before now; the foreign keys cascade to link
and entity rows. -/
def cleanupStore (db : Store) (now : String) : Store :=
  let keep := db.memories.filter (fun m => !isExpiredB now m)
  let ids := keep.map (fun m => m.id)
  { db with
      memories := keep
      links := db.links.filter (fun l => ids.contains l.src && ids.contains l.tgt)
      entities := db.entities.filter (fun e => ids.contains e.1) }

/-- Database::delete_memory with cascading deletes. -/
def deleteMemory (db : Store) (id : Nat) : Bool × Store :=
  (db.memories.any (fun m => m.id == id),
   { db with
       memories := db.memories.filter (fun m => !(m.id == id))
       links := db.links.filter (fun l => !(l.src == id) && !(l.tgt == id))
       entities := db.entities.filter (fun e => !(e.1 == id)) })

def searchFilt (proj kind : Option String) (m : Memory) : Bool :=
  (match proj with
   | some p => m.project == some p
   | none => true) &&
  (match kind with
   | some k => m.kind == k
   | none => true)

/-- Database::list_memories: TTL sweep, filter, order by updated_at
descending, total count under the same filter, then paginate. -/
def listMemories (db : Store) (now : String) (proj kind : Option String)
    (limit offset : Nat) : List Memory × Int × Store :=
  let db1 := cleanupStore db now
  let rows := db1.memories.filter (searchFilt proj kind)
  (((sortByB (fun a b => strLeB b.updatedAt a.updatedAt) rows).drop offset).take limit,
   (rows.length : Int), db1)

/-! ### Hybrid search -/

structure SearchResult where
  memory : Memory
  score : Frac
  deriving Repr, DecidableEq

/-- Lexical pass: rows the FTS oracle matches under the filters, by
ascending bm25 score, first 100. -/
def lexRows (bm : Memory → Option Frac) (proj kind : Option String)
    (mems : List Memory) : List Memory :=
  (sortByB (fun a b => fleB ((bm a).getD (fo 0)) ((bm b).getD (fo 0)))
    (mems.filter (fun m => searchFilt proj kind m && (bm m).isSome))).take 100

/-- One-based rank of a memory in a ranked row list. -/
def rankIn (rows : List Memory) (id : Nat) : Option Nat :=
  (rows.findIdx? (fun m => m.id == id)).map (fun i => i + 1)

/-- embedding::cosine_similarity on exact fractions. -/
def cosineF (a b : List Frac) : Frac :=
  if a.length != b.length || a.isEmpty then fo 0
  else (a.zip b).foldl (fun acc p => fadd acc (fmul p.1 p.2)) (fo 0)

/-- Vector pass: every filtered row scored by cosine against the query
embedding (missing blob scores 0), descending, first 100. -/
def vecRows (qEmb : List Frac) (proj kind : Option String)
    (mems : List Memory) : List Memory :=
  let scored := (mems.filter (searchFilt proj kind)).map (fun m =>
    (m, match m.embedding with
        | some e => cosineF qEmb e
        | none => fo 0))
  ((sortByB (fun a b => fleB b.2 a.2) scored).take 100).map (fun p => p.1)

/-- embedding::rrf_score with k = 60. -/
def rrfF (bmRank vecRank : Nat) : Frac :=
  fadd ⟨1, (60 : Int) + bmRank⟩ ⟨1, (60 : Int) + vecRank⟩

def boostOfRel (rel : String) : Frac :=
  if rel = "deprecates" then ⟨-9, 10⟩
  else if rel = "depends_on" || rel = "implements" || rel = "resolves" then ⟨1, 10⟩
  else ⟨1, 20⟩

/-- Sum of per-edge deltas over the incoming links of the id; an entry
exists exactly when at least one incoming link does. -/
def linkAccum (links : List Link) (id : Nat) : Option Frac :=
  let incoming := links.filter (fun l => l.tgt == id)
  if incoming.isEmpty then none
  else some (incoming.foldl (fun acc l => fadd acc (boostOfRel l.rel)) (fo 0))

/-- Number of supplied watcher keywords, counted with multiplicity, whose
lowercased form occurs in the lowercased content. -/
def watcherMatchCount (ks : List String) (content : String) : Nat :=
  ks.countP (fun w => containsSubL (lowerL content.data) (lowerL w.data))

/-- RRF score adjusted by importance and by the link boost, before the
watcher and tag adjustments. -/
def preWatcherScore (links : List Link) (lex vec : List Memory) (m : Memory) :
    Frac :=
  let s1 := fmul (rrfF ((rankIn lex m.id).getD 1000) ((rankIn vec m.id).getD 1000))
    ⟨m.importance, 3⟩
  match linkAccum links m.id with
  | some lb => fmul s1 (fadd (fo 1) lb)
  | none => s1

/-- The soft tag interaction: multiply by 1.5 on a (case-insensitive) tag
hit, by 0.1 otherwise, only when filter tags were supplied. -/
def tagFactorApplied (tags? : Option (List String)) (m : Memory) (s : Frac) :
    Frac :=
  match tags? with
  | none => s
  | some filterTags =>
    let fset := filterTags.map (fun t => String.mk (lowerL t.data))
    if m.tags.any (fun t => fset.contains (String.mk (lowerL t.data))) then
      fmul s ⟨3, 2⟩
    else fmul s ⟨1, 10⟩

/-- The fused score of one memory, in source order: RRF, importance,
link boost, watcher boost (only applied when the match count is
positive), tag interaction. -/
def fuseScore (links : List Link) (lex vec : List Memory)
    (ks? tags? : Option (List String)) (m : Memory) : Frac :=
  let s2 := preWatcherScore links lex vec m
  let s3 :=
    match ks? with
    | some ks =>
      let mc := watcherMatchCount ks m.content
      if mc > 0 then fmul s2 (fadd (fo 1) (fmul (fo mc) ⟨1, 5⟩)) else s2
    | none => s2
  tagFactorApplied tags? m s3

def dedupByIdGo (seen : List Nat) : List Memory → List Memory
  | [] => []
  | m :: rest =>
    if seen.contains m.id then dedupByIdGo seen rest
    else m :: dedupByIdGo (m.id :: seen) rest

/-- The all_memories map of the search: lexical rows united with every
filtered row, one entry per id. -/
def dedupById (l : List Memory) : List Memory := dedupByIdGo [] l

/-- Database::search.  An empty-tokenizing query returns before anything
else; otherwise: TTL sweep, lexical and vector passes, RRF fusion with
the adjustments, sort by score descending, take the limit, round scores
to four decimals, and bump the access counters of the returned rows. -/
def searchM (bm : Memory → Option Frac) (qEmb : List Frac) (db : Store)
    (now : String) (query : String) (limit : Nat) (proj kind : Option String)
    (tags? ks? : Option (List String)) : List SearchResult × Store :=
  if (splitWsL query.data).isEmpty then ([], db)
  else
    let db1 := cleanupStore db now
    let lex := lexRows bm proj kind db1.memories
    let vec := vecRows qEmb proj kind db1.memories
    let pool := dedupById (lex ++ db1.memories.filter (searchFilt proj kind))
    let scored := pool.map (fun m => (m, fuseScore db1.links lex vec ks? tags? m))
    let ranked := sortByB (fun a b => fleB b.2 a.2) scored
    let results := (ranked.take limit).map (fun p =>
      { memory := p.1, score := roundTo4 p.2 : SearchResult })
    let resIds := results.map (fun r => r.memory.id)
    (results,
     { db1 with
         memories := db1.memories.map (fun m =>
           if resIds.contains m.id then
             { m with
                 accessCount := m.accessCount + 1
                 lastAccessedAt := some now }
           else m) })

/-! ### Bulk add and the single-add handler (db.rs, tools.rs) -/

structure BulkItem where
  content : String
  kind : String
  project : Option String
  tags : Option (List String)
  source : String
  importance : Option Int
  expiresAt : Option String
  deriving Repr, DecidableEq

/-- Database::add_memories_bulk: per item, skip blank content, otherwise
add with the item defaults; no kind validation happens on this path.
Returns (added rows, merged count, skipped count, final store). -/
def addMemoriesBulk (ef : String → List Frac) (db : Store) (now : String)
    (items : List BulkItem) : List Memory × Nat × Nat × Store :=
  items.foldl (fun st item =>
    if (trimL item.content.data).isEmpty then
      (st.1, st.2.1, st.2.2.1 + 1, st.2.2.2)
    else
      let r := addMemory ef st.2.2.2 now item.content item.kind item.project
        (item.tags.getD []) item.source (item.importance.getD 3) item.expiresAt none
      if r.merged then (st.1, st.2.1 + 1, st.2.2.1, r.store)
      else (st.1 ++ [r.mem], st.2.1, st.2.2.1, r.store)) ([], 0, 0, db)

inductive WriteErr where
  | emptyContent
  | invalidKind (k : String)
  deriving Repr, DecidableEq

def validKinds : List String :=
  ["fact", "preference", "decision", "pattern", "snippet",
   "bug", "credential", "todo", "note"]

/-- tools::handle_add: content required non-blank, kind defaulted to fact
and checked against the closed set before any store call; an invalid
kind is a validation error and the store is untouched. -/
def handleAdd (ef : String → List Frac) (db : Store) (now : String)
    (content? kind? : Option String) (proj : Option String)
    (tags : List String) (source : String) (importance : Int)
    (exp? : Option String) (meta : Option String) : Except WriteErr AddOut :=
  match content? with
  | none => Except.error WriteErr.emptyContent
  | some c =>
    if (trimL c.data).isEmpty then Except.error WriteErr.emptyContent
    else
      let kind := kind?.getD "fact"
      if !validKinds.contains kind then Except.error (WriteErr.invalidKind kind)
      else Except.ok (addMemory ef db now c kind proj tags source importance exp? meta)

/-- One merge group of Database::run_gc (the body run for each project
bucket holding at least two candidates): truncate to the configured group
size, merge the contents, insert the summary through add_memory with tag
merged, source gc_compressor and importance 3, then delete the originals.
The inserted row and the merge flag of the add are returned so the effect
can be stated. -/
def gcMergeGroup (ef : String → List Frac) (db : Store) (now : String)
    (items : List (Nat × String)) (kind : String) (proj : Option String)
    (maxGroup : Nat) : Except Unit (Memory × Bool × Store) :=
  let items := items.take maxGroup
  let contents := items.map (fun p => p.2)
  match mergeMemoriesE contents kind proj with
  | Except.error e => Except.error e
  | Except.ok mc =>
    let r := addMemory ef db now mc kind proj ["merged"] "gc_compressor" 3 none none
    Except.ok (r.mem, r.merged, items.foldl (fun d p => (deleteMemory d p.1).2) r.store)

/-! ## Concrete fixtures -/

/-- Oracle standing for the f32 embedder where its values are irrelevant. -/
def efZero : String → List Frac := fun _ => []

def mkMem (id : Nat) (content kind : String) (proj : Option String)
    (imp : Int) (exp? : Option String) (upd : String) : Memory :=
  { id := id, content := content, kind := kind, project := proj, tags := [],
    source := "cursor", importance := imp, expiresAt := exp?, metadata := none,
    embedding := none, createdAt := upd, updatedAt := upd,
    lastAccessedAt := none, accessCount := 0 }

/-! ## C10: merge_memories panics on a multi-byte character at byte 120 -/

/-- A content of 123 bytes with a two-byte character straddling byte
index 120, and no sentence separator: the bullet truncation slices the
trimmed content at byte 120, which is not a character boundary. -/
def panicContent : String := String.mk (List.replicate 119 'a' ++ ['é', 'z', 'z'])

/-! ## C5 fixtures: a GC merge group in project p -/

def c5db : Store :=
  { memories :=
      [mkMem 0 "alpha beta fix" "bug" (some "p") 1 none "2025-01-01T00:00:00+00:00",
       mkMem 1 "gamma delta fix" "bug" (some "p") 1 none "2025-01-02T00:00:00+00:00",
       mkMem 2 "epsilon zeta fix" "bug" (some "p") 1 none "2025-01-03T00:00:00+00:00"],
    links := [], entities := [], nextId := 3 }

def c5out : Except Unit (Memory × Bool × Store) :=
  gcMergeGroup efZero c5db "2026-02-01T00:00:00+00:00"
    [(0, "alpha beta fix"), (1, "gamma delta fix"), (2, "epsilon zeta fix")]
    "bug" (some "p") 10

def c5str : String :=
  "[p] [MERGED] Bugs related to: alpha, beta, gamma, delta, epsilon. (3 items compressed)\n- alpha beta fix\n- gamma delta fix\n- epsilon zeta fix"

/-! ## C7 fixtures: update with an empty expires_at string -/

def c7mem : Memory := mkMem 0 "keep me around" "note" none 3 none "2025-06-01T00:00:00+00:00"

def c7db : Store :=
  { memories := [c7mem], links := [], entities := [], nextId := 1 }

/-! ## C4 fixtures: bulk add with an unknown kind -/

def c4item : BulkItem :=
  { content := "totally new fact", kind := "banana", project := none,
    tags := none, source := "cursor", importance := none, expiresAt := none }

/-- The tag interaction as a standalone multiplier (1 when no filter tags
are supplied). -/
def tagFactorF (tags? : Option (List String)) (m : Memory) : Frac :=
  match tags? with
  | none => fo 1
  | some filterTags =>
    let fset := filterTags.map (fun t => String.mk (lowerL t.data))
    if m.tags.any (fun t => fset.contains (String.mk (lowerL t.data))) then ⟨3, 2⟩
    else ⟨1, 10⟩

/-- Modelled from the claim wording for comparison: the number of
DISTINCT supplied keywords whose lowercased form occurs in the lowercased
content. -/
def distinctWatcherCount (ks : List String) (content : String) : Nat :=
  (dedupFirst (ks.map (fun w => String.mk (lowerL w.data)))).countP
    (fun w => containsSubL (lowerL content.data) w.data)

/-- FTS oracle with no lexical matches. -/
def bmNone : Memory → Option Frac := fun _ => none

/-- The row run_gc inserts for a merged group when the summary does not
dedup-merge: fresh id, the merged content, the group kind and project,
the single tag merged, source gc_compressor, importance 3. -/
def gcInsertedMem (ef : String → List Frac) (id : Nat) (mc kind : String)
    (proj : Option String) (now : String) : Memory :=
  { id := id, content := mc, kind := kind, project := proj,
    tags := ["merged"], source := "gc_compressor", importance := 3,
    expiresAt := none, metadata := none, embedding := some (ef mc),
    createdAt := now, updatedAt := now, lastAccessedAt := none,
    accessCount := 0 }

/-- The fresh row of the add_memory insert path: new uuid (the counter),
the given fields with importance clamped, both stamps at now, no access
yet. -/
def freshMem (ef : String → List Frac) (id : Nat) (c kind : String)
    (proj : Option String) (tags : List String) (source : String)
    (imp : Int) (exp? meta : Option String) (now : String) : Memory :=
  { id := id, content := c, kind := kind, project := proj, tags := tags,
    source := source, importance := clampI imp, expiresAt := exp?,
    metadata := meta, embedding := some (ef c), createdAt := now,
    updatedAt := now, lastAccessedAt := none, accessCount := 0 }

/-- The store after the INSERT of the add path, before the graph rebuild. -/
def insStore (db : Store) (mem : Memory) : Store :=
  { db with
      memories := db.memories ++ [mem]
      nextId := db.nextId + 1 }

/-! ## C1 fixtures: the same content added twice into an empty store -/

def c1db : Store := ⟨[], [], [], 0⟩

def c1o1 : AddOut :=
  addMemory efZero c1db "2025-01-01T00:00:00+00:00" "alpha beta" "note" none
    ["t1"] "cursor" 7 none none

def c1o2 : AddOut :=
  addMemory efZero c1o1.store "2025-01-02T00:00:00+00:00" "alpha beta" "note"
    none ["t2", "t1"] "cursor" 2 none none

/-! ## C8 fixtures: one row, duplicated watcher keyword -/

def c8mem : Memory := mkMem 0 "ab" "note" none 3 none "2025-01-01T00:00:00+00:00"

def c8db : Store := { memories := [c8mem], links := [], entities := [], nextId := 1 }

/-! ## C2 fixtures: one live and one expired row -/

def w2live : Memory := mkMem 0 "alive note" "note" none 3 none "2025-01-01T00:00:00+00:00"

def w2dead : Memory :=
  mkMem 1 "ephemeral note" "note" none 3 (some "2025-06-01T00:00:00+00:00")
    "2025-01-02T00:00:00+00:00"

def w2db : Store :=
  { memories := [w2live, w2dead], links := [], entities := [], nextId := 2 }

/-! ## Theorems -/

theorem mem_insertOrd (le : α → α → Bool) (x a : α) (l : List α) :
    a ∈ insertOrd le x l ↔ a = x ∨ a ∈ l := by
  induction l with
  | nil => simp [insertOrd]
  | cons y ys ih =>
    by_cases h : le x y = true
    · simp [insertOrd, h]
    · simp only [insertOrd, h]
      simp only [Bool.false_eq_true, if_false, List.mem_cons, ih]
      tauto

theorem mem_sortByB (le : α → α → Bool) (a : α) (l : List α) :
    a ∈ sortByB le l ↔ a ∈ l := by
  induction l with
  | nil => simp [sortByB]
  | cons x xs ih => simp [sortByB, mem_insertOrd, ih]

theorem length_insertOrd (le : α → α → Bool) (x : α) (l : List α) :
    (insertOrd le x l).length = l.length + 1 := by
  induction l with
  | nil => rfl
  | cons y ys ih =>
    by_cases h : le x y = true <;> simp [insertOrd, h, ih]

theorem length_sortByB (le : α → α → Bool) (l : List α) :
    (sortByB le l).length = l.length := by
  induction l with
  | nil => rfl
  | cons x xs ih => simp [sortByB, length_insertOrd, ih]

/-- find? over a list in which exactly one element satisfies the predicate
returns that element, whatever the order of the list. -/
theorem find?_of_unique (p : α → Bool) (l : List α) (x : α)
    (hx : x ∈ l) (hpx : p x = true)
    (huniq : ∀ y ∈ l, p y = true → y = x) :
    l.find? p = some x := by
  induction l with
  | nil => cases hx
  | cons h t ih =>
    by_cases hp : p h = true
    · have hhx : h = x := huniq h (List.mem_cons_self h t) hp
      subst hhx
      simp [List.find?, hp]
    · have hxt : x ∈ t := by
        rcases List.mem_cons.mp hx with rfl | hm
        · exact absurd hpx hp
        · exact hm
      have := ih hxt (fun y hy hpy => huniq y (List.mem_cons_of_mem _ hy) hpy)
      simpa [List.find?, hp] using this

theorem mergeHead_step (cur : List Char) (c : Char) (rest : List Char)
    (ts : List (List Char))
    (hcur : cur.isEmpty = false) (hc : isAlnumA c = true)
    (hu : isUpperA c = false) :
    mergeHead (cur ++ [c]) rest ts =
      mergeHead cur (c :: rest) (mergeHead [c] rest ts) := by
  have hne : (cur ++ [c]).isEmpty = false := by
    cases cur <;> simp
  cases rest with
  | nil => simp [mergeHead, hne, hcur, hc, hu]
  | cons d r =>
    cases hd : (isAlnumA d && !isUpperA d) with
    | true =>
      cases ts with
      | nil => simp [mergeHead, hne, hd, hcur, hc, hu]
      | cons t tl => simp [mergeHead, hne, hd, hcur, hc, hu]
    | false => simp [mergeHead, hne, hd, hcur, hc, hu]

theorem specGo_eq_mergeHead (l : List Char) :
    ∀ cur, specGo cur l = mergeHead cur l (declTokens l) := by
  induction l with
  | nil =>
    intro cur
    cases cur <;> simp [specGo, mergeHead, declTokens]
  | cons c rest ih =>
    intro cur
    cases hc : isAlnumA c with
    | true =>
      cases hcur : cur.isEmpty with
      | true =>
        have hcur' : cur = [] := by
          cases cur with
          | nil => rfl
          | cons a b => simp [List.isEmpty] at hcur
        subst hcur'
        have e1 : specGo [] (c :: rest) = specGo [c] rest := by
          rw [specGo]; simp [hc]
        rw [e1, ih [c]]
        simp [mergeHead, declTokens, hc]
      | false =>
        cases hu : isUpperA c with
        | true =>
          have e1 : specGo cur (c :: rest) = cur :: specGo [c] rest := by
            rw [specGo]; simp [hc, hu, hcur]
          rw [e1, ih [c]]
          simp [mergeHead, hcur, hu, declTokens, hc]
        | false =>
          have e1 : specGo cur (c :: rest) = specGo (cur ++ [c]) rest := by
            rw [specGo]; simp [hc, hu]
          rw [e1, ih (cur ++ [c]),
            mergeHead_step cur c rest (declTokens rest) hcur hc hu]
          have e2 : declTokens (c :: rest) = mergeHead [c] rest (declTokens rest) := by
            simp [declTokens, hc]
          rw [e2]
    | false =>
      cases hcur : cur.isEmpty with
      | true =>
        have hcur' : cur = [] := by
          cases cur with
          | nil => rfl
          | cons a b => simp [List.isEmpty] at hcur
        subst hcur'
        have e1 : specGo [] (c :: rest) = specGo [] rest := by
          rw [specGo]; simp [hc]
        rw [e1, ih []]
        simp [mergeHead, declTokens, hc]
      | false =>
        have e1 : specGo cur (c :: rest) = cur :: specGo [] rest := by
          rw [specGo]; simp [hc, hcur]
        rw [e1, ih []]
        simp [mergeHead, hcur, declTokens, hc]

theorem foldl_boostStep (l : List Char) :
    ∀ ws cur,
      (let st := l.foldl boostStep (ws, cur)
       st.1 ++ (if st.2.isEmpty then [] else [st.2])) = ws ++ specGo cur l := by
  induction l with
  | nil =>
    intro ws cur
    cases cur <;> simp [specGo]
  | cons c rest ih =>
    intro ws cur
    cases hc : isAlnumA c with
    | true =>
      cases h1 : (isUpperA c && !cur.isEmpty) with
      | true =>
        simp only [List.foldl, boostStep, hc, if_true, h1]
        rw [ih (ws ++ [cur]) [c]]
        have e1 : specGo cur (c :: rest) = cur :: specGo [c] rest := by
          rw [specGo]; simp [hc, h1]
        rw [e1]
        simp
      | false =>
        simp only [List.foldl, boostStep, hc, if_true, h1, Bool.false_eq_true,
          if_false]
        rw [ih ws (cur ++ [c])]
        have e1 : specGo cur (c :: rest) = specGo (cur ++ [c]) rest := by
          rw [specGo]; simp [hc, h1]
        rw [e1]
    | false =>
      cases hcur : cur.isEmpty with
      | true =>
        have hcur' : cur = [] := by
          cases cur with
          | nil => rfl
          | cons a b => simp [List.isEmpty] at hcur
        subst hcur'
        simp only [List.foldl, boostStep, hc, Bool.false_eq_true, if_false,
          List.isEmpty_nil, Bool.not_true]
        rw [ih ws []]
        have e1 : specGo ([] : List Char) (c :: rest) = specGo [] rest := by
          rw [specGo]; simp [hc]
        rw [e1]
      | false =>
        have h2 : (!cur.isEmpty) = true := by simp [hcur]
        simp only [List.foldl, boostStep, hc, Bool.false_eq_true, if_false, h2,
          if_true]
        rw [ih (ws ++ [cur]) []]
        have e1 : specGo cur (c :: rest) = cur :: specGo [] rest := by
          rw [specGo]; simp [hc, hcur]
        rw [e1]
        simp

theorem stemWords_eq_declTokens (stem : List Char) :
    stemWords stem = declTokens stem := by
  have h := foldl_boostStep stem [] []
  simp only [List.nil_append] at h
  rw [stemWords, h, specGo_eq_mergeHead]
  simp [mergeHead]

/-- C9 counterexample: the stored filename HTMLParser.rs is split by the
code before every uppercase letter, giving H, T, M, L, Parser, while
splitting only at non-alphanumeric and lowercase-to-uppercase boundaries
as the claim states would keep HTMLParser whole (no uppercase letter in
it is preceded by a lowercase letter). -/
theorem boost_keywords_upper_run_counterexample :
    getBoostKeywords [⟨"", "HTMLParser.rs", ""⟩] = ["H", "T", "M", "L", "Parser"] ∧
    claimKeywords [⟨"", "HTMLParser.rs", ""⟩] = ["HTMLParser"] ∧
    getBoostKeywords [⟨"", "HTMLParser.rs", ""⟩] ≠
      claimKeywords [⟨"", "HTMLParser.rs", ""⟩] := by
  refine ⟨rfl, rfl, by decide⟩

/-- C9 amended: get_boost_keywords returns, in order and for each stored
filename, the tokens of the portion of the filename before the first dot,
cut at every non-alphanumeric character and in addition before every
uppercase character (not only at lowercase-to-uppercase boundaries); in
particular MyWidget.rs yields exactly My, Widget. -/
theorem boost_keywords_decl_split :
    (∀ cs : List FileChange,
      getBoostKeywords cs =
        cs.flatMap (fun c =>
          (declTokens (stemOf c.filename)).map (fun w => String.mk w))) ∧
    getBoostKeywords [⟨"", "MyWidget.rs", ""⟩] = ["My", "Widget"] := by
  constructor
  · intro cs
    have hf : (fun c : FileChange =>
        (stemWords (stemOf c.filename)).map (fun w => String.mk w)) =
        (fun c : FileChange =>
          (declTokens (stemOf c.filename)).map (fun w => String.mk w)) := by
      funext c
      rw [stemWords_eq_declTokens]
    rw [getBoostKeywords, hf]
  · rfl

theorem rebuildLinks_memories (db : Store) (mem : Memory) :
    (rebuildLinks db mem).memories = db.memories := rfl

theorem rebuildLinks_nextId (db : Store) (mem : Memory) :
    (rebuildLinks db mem).nextId = db.nextId := rfl

/-- C10: merge_memories is not total: on a group whose first content has
a multi-byte character straddling byte index 120 and no sentence
separator, the bullet slice panics (modelled by Except.error). -/
theorem merge_memories_panics_on_multibyte :
    mergeMemoriesE [panicContent, "second bug item"] "bug" none =
      Except.error () := by decide

/-- C5 counterexample: merging 3 bug items of project p inserts an item
whose content starts with the project marker, not with the literal
string the claim requires. -/
theorem gc_merge_project_marker_counterexample :
    c5out.map (fun r => (r.1.content, r.1.kind, r.1.tags, r.1.importance)) =
      Except.ok (c5str, "bug", ["merged"], (3 : Int)) ∧
    startsWithL c5str.data "[MERGED]".data = false := by
  constructor
  · decide
  · decide

/-- C7 counterexample: updating expires_at to the empty string does not
clear the expiry; the empty string sorts before every timestamp text, so
the very next TTL sweep deletes the item (which was not deleted before
the update). -/
theorem update_empty_expiry_counterexample :
    (cleanupStore c7db "2026-01-02T00:00:00+00:00").memories.length = 1 ∧
    (cleanupStore
      (updateMemoryFull efZero c7db "2026-01-01T00:00:00+00:00" 0
        none none none none (some "")).2
      "2026-01-02T00:00:00+00:00").memories = [] := by
  constructor
  · decide
  · decide

theorem find?_append_of_none (p : α → Bool) (l1 l2 : List α)
    (h : ∀ x ∈ l1, p x = false) : (l1 ++ l2).find? p = l2.find? p := by
  induction l1 with
  | nil => rfl
  | cons a t ih =>
    have ha := h a (List.mem_cons_self a t)
    simp only [List.cons_append, List.find?, ha]
    exact ih (fun x hx => h x (List.mem_cons_of_mem _ hx))

theorem map_self_of_fix (f : α → α) (l : List α) (h : ∀ x ∈ l, f x = x) :
    l.map f = l := by
  induction l with
  | nil => rfl
  | cons a t ih =>
    simp only [List.map_cons, h a (List.mem_cons_self a t),
      ih (fun x hx => h x (List.mem_cons_of_mem _ hx))]

theorem mem_of_dedupByIdGo (seen : List Nat) (l : List Memory) (m : Memory)
    (h : m ∈ dedupByIdGo seen l) : m ∈ l := by
  induction l generalizing seen with
  | nil => cases h
  | cons a t ih =>
    cases hc : seen.contains a.id with
    | true =>
      rw [dedupByIdGo, if_pos hc] at h
      exact List.mem_cons_of_mem _ (ih _ h)
    | false =>
      rw [dedupByIdGo, if_neg (by rw [hc]; exact Bool.false_ne_true)] at h
      rcases List.mem_cons.mp h with rfl | h
      · exact List.mem_cons_self _ _
      · exact List.mem_cons_of_mem _ (ih _ h)

theorem mem_of_dedupById (l : List Memory) (m : Memory)
    (h : m ∈ dedupById l) : m ∈ l := mem_of_dedupByIdGo [] l m h

theorem mergeTags_cons (l1 : List String) (x : String) (xs : List String) :
    mergeTags l1 (x :: xs) =
      mergeTags (if l1.contains x then l1 else l1 ++ [x]) xs := rfl

theorem mem_mergeTags (l2 l1 : List String) (t : String) :
    t ∈ mergeTags l1 l2 ↔ t ∈ l1 ∨ t ∈ l2 := by
  induction l2 generalizing l1 with
  | nil => simp [mergeTags]
  | cons x xs ih =>
    rw [mergeTags_cons, ih]
    by_cases hc : l1.contains x = true
    · have hx : x ∈ l1 := List.elem_iff.mp hc
      rw [if_pos hc]
      constructor
      · rintro (h | h)
        · exact Or.inl h
        · exact Or.inr (List.mem_cons_of_mem _ h)
      · rintro (h | h)
        · exact Or.inl h
        · rcases List.mem_cons.mp h with rfl | h
          · exact Or.inl hx
          · exact Or.inr h
    · rw [if_neg hc]
      simp only [List.mem_append, List.mem_singleton, List.mem_cons]
      tauto

theorem similarity_self_ge (s : String) :
    fleB ⟨85, 100⟩ (similarityF s s) = true := by
  rw [similarityF]
  by_cases hwe : (dedupFirst (splitWsL s.data)).isEmpty = true
  · simp only [hwe, Bool.and_self, if_true]
    decide
  · have hsub : ∀ x ∈ dedupFirst (splitWsL s.data),
        (dedupFirst (splitWsL s.data)).contains x = true :=
      fun x hx => List.elem_iff.mpr hx
    have hfilter1 : (dedupFirst (splitWsL s.data)).filter
        (fun w => (dedupFirst (splitWsL s.data)).contains w) =
        dedupFirst (splitWsL s.data) := List.filter_eq_self.mpr hsub
    have hfilter2 : (dedupFirst (splitWsL s.data)).filter
        (fun w => !(dedupFirst (splitWsL s.data)).contains w) = [] :=
      List.filter_eq_nil_iff.mpr (fun a ha => by rw [hsub a ha]; simp)
    have hlen : (dedupFirst (splitWsL s.data)).length ≠ 0 := by
      cases h : dedupFirst (splitWsL s.data) with
      | nil => rw [h] at hwe; simp at hwe
      | cons a t => simp
    simp only [hwe, Bool.and_self, Bool.false_eq_true, if_false, hfilter1,
      hfilter2, List.length_nil, Nat.add_zero]
    rw [if_neg hlen, fleB, decide_eq_true_eq]
    dsimp only
    omega

theorem content_ne_of_not_dupHit (c : String) (m : Memory)
    (h : dupHitB (normalizeStr c) m = false) : (m.content == c) = false := by
  by_cases hc : m.content = c
  · rw [dupHitB, hc, similarity_self_ge] at h
    cases h
  · simp [hc]

theorem findDuplicate_eq_none (db : Store) (content : String)
    (proj : Option String)
    (h : ∀ m ∈ db.memories, scopeEqB proj m = true →
      dupHitB (normalizeStr content) m = false) :
    findDuplicate db content proj = none := by
  rw [findDuplicate, List.find?_eq_none]
  intro x hx
  have hx1 := List.mem_of_mem_take hx
  have hx2 := (mem_sortByB _ _ _).mp hx1
  have hx3 := List.mem_filter.mp hx2
  simp [h x hx3.1 hx3.2]

theorem clampI_maxI (a b : Int) : clampI (maxI b (clampI a)) = clampI (maxI a b) := by
  simp only [clampI, maxI]
  split_ifs <;> omega

theorem updateMemoryFull_eq (ef : String → List Frac) (db : Store)
    (now : String) (id : Nat) (content? kind? : Option String)
    (tags? : Option (List String)) (imp? : Option Int) (exp? : Option String)
    (existing : Memory) (hget : getMemory db id = some existing) :
    updateMemoryFull ef db now id content? kind? tags? imp? exp? =
      (some { existing with
                content := content?.getD existing.content
                kind := kind?.getD existing.kind
                tags := tags?.getD existing.tags
                importance := clampI (imp?.getD existing.importance)
                expiresAt := if exp?.isSome then exp? else existing.expiresAt
                updatedAt := now
                embedding := some (ef (content?.getD existing.content)) },
       rebuildLinks
         { db with
             memories := db.memories.map (fun m =>
               if m.id == id then
                 { m with
                     content := content?.getD existing.content
                     kind := kind?.getD existing.kind
                     tags := tags?.getD existing.tags
                     importance := clampI (imp?.getD existing.importance)
                     expiresAt := if exp?.isSome then exp? else existing.expiresAt
                     updatedAt := now
                     embedding := some (ef (content?.getD existing.content)) }
               else m) }
         { existing with
             content := content?.getD existing.content
             kind := kind?.getD existing.kind
             tags := tags?.getD existing.tags
             importance := clampI (imp?.getD existing.importance)
             expiresAt := if exp?.isSome then exp? else existing.expiresAt
             updatedAt := now
             embedding := some (ef (content?.getD existing.content)) }) := by
  rw [updateMemoryFull, hget]

/-- C4 amended: the single-add handler rejects a kind outside the closed
set with a validation error before any store call, so no row is stored;
the bulk path (see the counterexample) performs no such validation. -/
theorem single_add_unknown_kind_rejected
    (ef : String → List Frac) (db : Store) (now c k : String)
    (proj : Option String) (tags : List String) (source : String)
    (importance : Int) (exp? : Option String) (meta : Option String)
    (hc : (trimL c.data).isEmpty = false)
    (hk : k ∉ validKinds) :
    handleAdd ef db now (some c) (some k) proj tags source importance exp? meta =
      Except.error (WriteErr.invalidKind k) := by
  have hkb : validKinds.contains k = false := by
    cases h : validKinds.contains k with
    | false => rfl
    | true => exact absurd (List.elem_iff.mp h) hk
  simp [handleAdd, hc, hkb, hk]

theorem single_add_unknown_kind_rejected_witness :
    handleAdd efZero ⟨[], [], [], 0⟩ "2026-01-01T00:00:00+00:00"
      (some "hello world") (some "banana") none [] "cursor" 3 none none =
      Except.error (WriteErr.invalidKind "banana") :=
  single_add_unknown_kind_rejected efZero ⟨[], [], [], 0⟩
    "2026-01-01T00:00:00+00:00" "hello world" "banana" none [] "cursor" 3
    none none (by decide) (by decide)

theorem all_not_id_of_cleanup (dbx : Store) (now2 : String) (id : Nat)
    (h : ∀ m ∈ dbx.memories, (m.id == id) = true → isExpiredB now2 m = true) :
    ((cleanupStore dbx now2).memories.all (fun mm => !(mm.id == id))) = true := by
  rw [List.all_eq_true]
  intro mm hmm
  have hmm' : mm ∈ dbx.memories.filter (fun m => !isExpiredB now2 m) := hmm
  have hmem := List.mem_filter.mp hmm'
  cases ho : (mm.id == id) with
  | false => rfl
  | true =>
    have hex := h mm hmem.1 ho
    rw [hex] at hmem
    simpa using hmem.2

/-- C7 amended: update replaces expires_at exactly when the argument is
present and preserves it when absent; the other provided fields replace
(importance clamped to 1..5) and absent fields preserve; project, source,
creation time, metadata and access data are always preserved.  Passing
the empty string does not exempt the row from TTL: it stores the empty
string, which sorts before every timestamp text, so the row is deleted by
the next sweep. -/
theorem update_expiry_semantics
    (ef : String → List Frac) (db : Store) (now : String) (id : Nat)
    (content? kind? : Option String) (tags? : Option (List String))
    (imp? : Option Int) (exp? : Option String) (existing : Memory)
    (hget : getMemory db id = some existing) :
    ∃ m : Memory,
      (updateMemoryFull ef db now id content? kind? tags? imp? exp?).1 = some m ∧
      m.expiresAt = (if exp?.isSome then exp? else existing.expiresAt) ∧
      m.content = content?.getD existing.content ∧
      m.kind = kind?.getD existing.kind ∧
      m.tags = tags?.getD existing.tags ∧
      m.importance = clampI (imp?.getD existing.importance) ∧
      m.project = existing.project ∧
      m.source = existing.source ∧
      m.createdAt = existing.createdAt ∧
      m.metadata = existing.metadata ∧
      m.accessCount = existing.accessCount ∧
      m.updatedAt = now ∧
      (∀ now2 : String, exp? = some "" → strLtB "" now2 = true →
        ((cleanupStore
            (updateMemoryFull ef db now id content? kind? tags? imp? exp?).2
            now2).memories.all (fun mm => !(mm.id == id))) = true) := by
  rw [updateMemoryFull_eq ef db now id content? kind? tags? imp? exp? existing hget]
  refine ⟨_, rfl, rfl, rfl, rfl, rfl, rfl, rfl, rfl, rfl, rfl, rfl, rfl, ?_⟩
  intro now2 hexp hlt
  subst hexp
  apply all_not_id_of_cleanup
  intro m hm hmid
  obtain ⟨orig, horig, hfo⟩ := List.mem_map.mp hm
  cases ho : (orig.id == id) with
  | true =>
    rw [if_pos ho] at hfo
    rw [← hfo, isExpiredB]
    exact hlt
  | false =>
    rw [if_neg (by rw [ho]; exact Bool.false_ne_true)] at hfo
    rw [← hfo, ho] at hmid
    cases hmid

theorem update_expiry_semantics_witness :
    ∃ m : Memory,
      (updateMemoryFull efZero c7db "2026-01-01T00:00:00+00:00" 0
        (some "new content") none none none (some "")).1 = some m ∧
      m.expiresAt = (if (some "").isSome then some "" else c7mem.expiresAt) ∧
      m.content = (some "new content").getD c7mem.content ∧
      m.kind = Option.getD none c7mem.kind ∧
      m.tags = Option.getD none c7mem.tags ∧
      m.importance = clampI (Option.getD none c7mem.importance) ∧
      m.project = c7mem.project ∧
      m.source = c7mem.source ∧
      m.createdAt = c7mem.createdAt ∧
      m.metadata = c7mem.metadata ∧
      m.accessCount = c7mem.accessCount ∧
      m.updatedAt = "2026-01-01T00:00:00+00:00" ∧
      (∀ now2 : String, some "" = some "" → strLtB "" now2 = true →
        ((cleanupStore
            (updateMemoryFull efZero c7db "2026-01-01T00:00:00+00:00" 0
              (some "new content") none none none (some "")).2
            now2).memories.all (fun mm => !(mm.id == 0))) = true) :=
  update_expiry_semantics efZero c7db "2026-01-01T00:00:00+00:00" 0
    (some "new content") none none none (some "") c7mem (by decide)

theorem not_expired_of_mem_cleanup (db : Store) (now : String) (m : Memory)
    (h : m ∈ (cleanupStore db now).memories) : (!isExpiredB now m) = true := by
  have h' : m ∈ db.memories.filter (fun x => !isExpiredB now x) := h
  exact (List.mem_filter.mp h').2

/-- Every returned search result is built from a row of the swept store,
and its score is the rounded fused score of that row. -/
theorem search_result_shape (bm : Memory → Option Frac) (qEmb : List Frac)
    (db : Store) (now query : String) (limit : Nat) (proj kind : Option String)
    (tags? ks? : Option (List String)) (r : SearchResult)
    (hr : r ∈ (searchM bm qEmb db now query limit proj kind tags? ks?).1) :
    r.memory ∈ (cleanupStore db now).memories ∧
    r.score = roundTo4 (fuseScore (cleanupStore db now).links
      (lexRows bm proj kind (cleanupStore db now).memories)
      (vecRows qEmb proj kind (cleanupStore db now).memories) ks? tags?
      r.memory) := by
  by_cases hq : (splitWsL query.data).isEmpty = true
  · rw [searchM, if_pos hq] at hr
    cases hr
  · rw [searchM, if_neg hq] at hr
    obtain ⟨p, hp, hpr⟩ := List.mem_map.mp hr
    have hp1 := List.mem_of_mem_take hp
    have hp2 := (mem_sortByB _ _ _).mp hp1
    obtain ⟨m, hm, hpm⟩ := List.mem_map.mp hp2
    have hmem := mem_of_dedupById _ _ hm
    subst hpm
    subst hpr
    refine ⟨?_, rfl⟩
    rcases List.mem_append.mp hmem with hlex | hfil
    · have h1 := List.mem_of_mem_take hlex
      have h2 := (mem_sortByB _ _ _).mp h1
      exact (List.mem_filter.mp h2).1
    · exact (List.mem_filter.mp hfil).1

/-- C2: a memory whose expiry stamp sorts before now is neither among the
results of search or list, nor (once the query tokenizes to at least one
word, which every tool-surface caller guarantees) in the store they leave
behind: the sweep runs before scoring and listing. -/
theorem ttl_expired_absent (bm : Memory → Option Frac) (qEmb : List Frac)
    (db : Store) (now query : String) (limit : Nat) (proj kind : Option String)
    (tags? ks? : Option (List String)) (lproj lkind : Option String)
    (llimit loffset : Nat) :
    ((searchM bm qEmb db now query limit proj kind tags? ks?).1.all
      (fun r => !isExpiredB now r.memory)) = true ∧
    ((splitWsL query.data).isEmpty = false →
      ((searchM bm qEmb db now query limit proj kind tags? ks?).2.memories.all
        (fun m => !isExpiredB now m)) = true) ∧
    ((listMemories db now lproj lkind llimit loffset).1.all
      (fun m => !isExpiredB now m)) = true ∧
    ((listMemories db now lproj lkind llimit loffset).2.2.memories.all
      (fun m => !isExpiredB now m)) = true := by
  refine ⟨?_, ?_, ?_, ?_⟩
  · rw [List.all_eq_true]
    intro r hr
    exact not_expired_of_mem_cleanup db now r.memory
      (search_result_shape bm qEmb db now query limit proj kind tags? ks? r hr).1
  · intro hq
    rw [searchM, if_neg (by rw [hq]; exact Bool.false_ne_true)]
    rw [List.all_eq_true]
    intro mm hmm
    obtain ⟨orig, horig, hfo⟩ := List.mem_map.mp hmm
    have horig' := not_expired_of_mem_cleanup db now orig horig
    split at hfo
    · rw [← hfo]
      exact horig'
    · rw [← hfo]
      exact horig'
  · rw [List.all_eq_true]
    intro m hm
    have h1 := List.mem_of_mem_take hm
    have h2 := List.mem_of_mem_drop h1
    have h3 := (mem_sortByB _ _ _).mp h2
    have h4 := List.mem_filter.mp h3
    exact not_expired_of_mem_cleanup db now m h4.1
  · rw [List.all_eq_true]
    intro m hm
    exact not_expired_of_mem_cleanup db now m hm

theorem ttl_expired_absent_witness :
    ((searchM bmNone [] w2db "2026-01-01T00:00:00+00:00" "note" 10 none none
      none none).1.all
      (fun r => !isExpiredB "2026-01-01T00:00:00+00:00" r.memory)) = true ∧
    ((searchM bmNone [] w2db "2026-01-01T00:00:00+00:00" "note" 10 none none
      none none).2.memories.all
      (fun m => !isExpiredB "2026-01-01T00:00:00+00:00" m)) = true ∧
    ((listMemories w2db "2026-01-01T00:00:00+00:00" none none 20 0).1.all
      (fun m => !isExpiredB "2026-01-01T00:00:00+00:00" m)) = true ∧
    ((listMemories w2db "2026-01-01T00:00:00+00:00" none none 20 0).2.2.memories.all
      (fun m => !isExpiredB "2026-01-01T00:00:00+00:00" m)) = true := by
  have h := ttl_expired_absent bmNone [] w2db "2026-01-01T00:00:00+00:00"
    "note" 10 none none none none none none 20 0
  exact ⟨h.1, h.2.1 (by decide), h.2.2.1, h.2.2.2⟩

theorem val_fmul (a b : Frac) : (fmul a b).val = a.val * b.val := by
  unfold fmul Frac.val
  push_cast
  rw [div_mul_div_comm]

theorem watcher_factor_val (mc : Nat) :
    (fadd (fo 1) (fmul (fo mc) ⟨1, 5⟩)).val = 1 + (mc : ℚ) / 5 := by
  unfold fadd fmul fo Frac.val
  push_cast
  norm_num
  rw [add_div]
  norm_num

theorem tagFactor_val (tags? : Option (List String)) (m : Memory) (s : Frac) :
    (tagFactorApplied tags? m s).val = s.val * (tagFactorF tags? m).val := by
  cases tags? with
  | none =>
    simp [tagFactorApplied, tagFactorF, fo, Frac.val]
  | some ft =>
    simp only [tagFactorApplied, tagFactorF]
    split_ifs <;> rw [val_fmul]

/-- The watcher adjustment in closed form: the fused score is the
pre-watcher score multiplied by 1 + m/5 with m the keyword match count
(entries with multiplicity), and by the tag factor. -/
theorem fuse_val (links : List Link) (lex vec : List Memory) (ks : List String)
    (tags? : Option (List String)) (m : Memory) :
    (fuseScore links lex vec (some ks) tags? m).val =
      (preWatcherScore links lex vec m).val *
        (1 + (watcherMatchCount ks m.content : ℚ) / 5) *
        (tagFactorF tags? m).val := by
  rw [fuseScore]
  by_cases hmc : watcherMatchCount ks m.content > 0
  · rw [if_pos hmc, tagFactor_val, val_fmul, watcher_factor_val]
  · rw [if_neg hmc, tagFactor_val]
    have h0 : watcherMatchCount ks m.content = 0 := Nat.eq_zero_of_not_pos hmc
    rw [h0]
    norm_num

/-- C8 amended: when watcher keywords are supplied, each returned result
score is the rounded fused score of its row, and that fused score is the
pre-watcher score multiplied by (1 + 0.2 m) and by the tag factor, where
m counts the supplied keyword entries (with multiplicity, so a keyword
listed twice counts twice) whose lowercased form occurs in the lowercased
content. -/
theorem watcher_boost_factor (bm : Memory → Option Frac) (qEmb : List Frac)
    (db : Store) (now query : String) (limit : Nat) (proj kind : Option String)
    (tags? : Option (List String)) (ks : List String) (r : SearchResult)
    (hr : r ∈ (searchM bm qEmb db now query limit proj kind tags? (some ks)).1) :
    r.score = roundTo4 (fuseScore (cleanupStore db now).links
      (lexRows bm proj kind (cleanupStore db now).memories)
      (vecRows qEmb proj kind (cleanupStore db now).memories) (some ks) tags?
      r.memory) ∧
    (fuseScore (cleanupStore db now).links
      (lexRows bm proj kind (cleanupStore db now).memories)
      (vecRows qEmb proj kind (cleanupStore db now).memories) (some ks) tags?
      r.memory).val =
      (preWatcherScore (cleanupStore db now).links
        (lexRows bm proj kind (cleanupStore db now).memories)
        (vecRows qEmb proj kind (cleanupStore db now).memories) r.memory).val *
        (1 + (watcherMatchCount ks r.memory.content : ℚ) / 5) *
        (tagFactorF tags? r.memory).val :=
  ⟨(search_result_shape bm qEmb db now query limit proj kind tags? (some ks) r hr).2,
   fuse_val _ _ _ ks tags? r.memory⟩

theorem watcher_boost_factor_witness :
    ({ memory := c8mem, score := ⟨243, 10000⟩ } : SearchResult).score =
      roundTo4 (fuseScore (cleanupStore c8db "2026-01-01T00:00:00+00:00").links
        (lexRows bmNone none none
          (cleanupStore c8db "2026-01-01T00:00:00+00:00").memories)
        (vecRows [] none none
          (cleanupStore c8db "2026-01-01T00:00:00+00:00").memories)
        (some ["ab", "ab"]) none c8mem) ∧
    (fuseScore (cleanupStore c8db "2026-01-01T00:00:00+00:00").links
      (lexRows bmNone none none
        (cleanupStore c8db "2026-01-01T00:00:00+00:00").memories)
      (vecRows [] none none
        (cleanupStore c8db "2026-01-01T00:00:00+00:00").memories)
      (some ["ab", "ab"]) none c8mem).val =
      (preWatcherScore (cleanupStore c8db "2026-01-01T00:00:00+00:00").links
        (lexRows bmNone none none
          (cleanupStore c8db "2026-01-01T00:00:00+00:00").memories)
        (vecRows [] none none
          (cleanupStore c8db "2026-01-01T00:00:00+00:00").memories) c8mem).val *
        (1 + (watcherMatchCount ["ab", "ab"] c8mem.content : ℚ) / 5) *
        (tagFactorF none c8mem).val :=
  watcher_boost_factor bmNone [] c8db "2026-01-01T00:00:00+00:00" "q" 10
    none none none ["ab", "ab"] { memory := c8mem, score := ⟨243, 10000⟩ }
    (by decide)

/-- C8 counterexample: with the duplicated keyword list [ab, ab] and the
single-row store whose content is ab, the returned score is the rounded
base score times 1.4 (match count 2, with multiplicity); counting
distinct keywords as the claim states would give 1.2, a different rounded
score. -/
theorem watcher_boost_multiplicity_counterexample :
    (searchM bmNone [] c8db "2026-01-01T00:00:00+00:00" "q" 10 none none
      none (some ["ab", "ab"])).1 =
      [{ memory := c8mem, score := ⟨243, 10000⟩ }] ∧
    watcherMatchCount ["ab", "ab"] "ab" = 2 ∧
    distinctWatcherCount ["ab", "ab"] "ab" = 1 ∧
    roundTo4 (fmul (preWatcherScore (cleanupStore c8db "2026-01-01T00:00:00+00:00").links
      (lexRows bmNone none none
        (cleanupStore c8db "2026-01-01T00:00:00+00:00").memories)
      (vecRows [] none none
        (cleanupStore c8db "2026-01-01T00:00:00+00:00").memories) c8mem)
      (fadd (fo 1) (fmul (fo (distinctWatcherCount ["ab", "ab"] "ab")) ⟨1, 5⟩))) =
      (⟨208, 10000⟩ : Frac) ∧
    (⟨243, 10000⟩ : Frac) ≠ (⟨208, 10000⟩ : Frac) := by
  refine ⟨by decide, by decide, by decide, by decide, by decide⟩

theorem startsWithL_append_self (l l2 : List Char) :
    startsWithL (l ++ l2) l = true := by
  induction l with
  | nil => cases l2 <;> rfl
  | cons c cs ih => simp [startsWithL, ih]

theorem startsWithL_append_of (l p l2 : List Char)
    (h : startsWithL l p = true) : startsWithL (l ++ l2) p = true := by
  induction p generalizing l with
  | nil => cases l ++ l2 <;> rfl
  | cons d ds ih =>
    cases l with
    | nil => cases h
    | cons a as =>
      rw [startsWithL] at h
      rcases Bool.and_eq_true_iff.mp h with ⟨had, hrest⟩
      rw [List.cons_append, startsWithL, had]
      simpa using ih as hrest

/-- The ok value of a multi-item merge starts with the project marker,
the merged tag literal, the kind label and the subject keywords. -/
theorem mergeMemoriesE_ok_shape (contents : List String) (kind : String)
    (proj : Option String) (mc : String)
    (hlen : 2 ≤ contents.length)
    (hok : mergeMemoriesE contents kind proj = Except.ok mc) :
    startsWithL mc.data (projMark proj ++ "[MERGED] " ++ kindLabel kind ++
      " related to: " ++ subjectOf contents).data = true := by
  cases contents with
  | nil => simp at hlen
  | cons a t =>
    cases t with
    | nil => simp at hlen
    | cons b t2 =>
      have hunf : mergeMemoriesE (a :: b :: t2) kind proj =
          (bulletsGo (a :: b :: t2) 8).map (fun bullets =>
            projMark proj ++ "[MERGED] " ++ kindLabel kind ++
            " related to: " ++ subjectOf (a :: b :: t2) ++ ". (" ++
            natToStr (a :: b :: t2).length ++ " items compressed)\n" ++
            joinStr "\n" bullets) := rfl
      rw [hunf] at hok
      cases hbg : bulletsGo (a :: b :: t2) 8 with
      | error e => rw [hbg] at hok; cases hok
      | ok bl =>
        rw [hbg] at hok
        have hmc : mc = projMark proj ++ "[MERGED] " ++ kindLabel kind ++
            " related to: " ++ subjectOf (a :: b :: t2) ++ ". (" ++
            natToStr (a :: b :: t2).length ++ " items compressed)\n" ++
            joinStr "\n" bl := by
          cases hok
          rfl
        rw [hmc, String.data_append, String.data_append, String.data_append]
        apply startsWithL_append_of
        apply startsWithL_append_of
        apply startsWithL_append_of
        exact startsWithL_append_self _ _

theorem mem_foldl_deletes (l : List (Nat × String)) (dbx : Store) (m : Memory)
    (hm : m ∈ dbx.memories) (hne : ∀ q ∈ l, m.id ≠ q.1) :
    m ∈ (l.foldl (fun d p => (deleteMemory d p.1).2) dbx).memories := by
  induction l generalizing dbx with
  | nil => exact hm
  | cons q t ih =>
    apply ih
    · refine List.mem_filter.mpr ⟨hm, ?_⟩
      simp [hne q (List.mem_cons_self q t)]
    · intro x hx
      exact hne x (List.mem_cons_of_mem _ hx)

/-- C5 amended: a GC merge of 2 or more candidate items whose merged
summary does not itself dedup-merge into an existing row inserts an item
with the group kind, the single tag merged and importance 3, whose
content begins with the project marker when the group has a project,
followed by the merged literal, the kind label and the top-5 subject
keywords; a global group begins directly with the merged literal. -/
theorem gc_merge_inserted_item_shape
    (ef : String → List Frac) (db : Store) (now : String)
    (items : List (Nat × String)) (kind : String) (proj : Option String)
    (maxGroup : Nat) (mc : String)
    (hmerge : mergeMemoriesE ((items.take maxGroup).map (fun q => q.2)) kind
      proj = Except.ok mc)
    (hlen : 2 ≤ (items.take maxGroup).length)
    (hnodup : ∀ m ∈ db.memories, scopeEqB proj m = true →
      dupHitB (normalizeStr mc) m = false)
    (hids : ∀ q ∈ items, q.1 ≠ db.nextId) :
    (∃ dbF : Store,
      gcMergeGroup ef db now items kind proj maxGroup =
        Except.ok (gcInsertedMem ef db.nextId mc kind proj now, false, dbF) ∧
      (∃ m ∈ dbF.memories, m.content = mc ∧ m.kind = kind ∧
        m.tags = ["merged"] ∧ m.importance = 3)) ∧
    startsWithL mc.data (projMark proj ++ "[MERGED] " ++ kindLabel kind ++
      " related to: " ++
      subjectOf ((items.take maxGroup).map (fun q => q.2))).data = true := by
  have hdup : findDuplicate db mc proj = none :=
    findDuplicate_eq_none db mc proj hnodup
  have h2 : addMemory ef db now mc kind proj ["merged"] "gc_compressor" 3
      none none =
      ⟨gcInsertedMem ef db.nextId mc kind proj now, false,
        rebuildLinks
          { db with
              memories := db.memories ++ [gcInsertedMem ef db.nextId mc kind proj now]
              nextId := db.nextId + 1 }
          (gcInsertedMem ef db.nextId mc kind proj now)⟩ := by
    unfold addMemory
    rw [hdup]
    rfl
  have h1 : gcMergeGroup ef db now items kind proj maxGroup =
      Except.ok
        ((addMemory ef db now mc kind proj ["merged"] "gc_compressor" 3
            none none).mem,
         (addMemory ef db now mc kind proj ["merged"] "gc_compressor" 3
            none none).merged,
         (items.take maxGroup).foldl (fun d p => (deleteMemory d p.1).2)
           (addMemory ef db now mc kind proj ["merged"] "gc_compressor" 3
             none none).store) := by
    unfold gcMergeGroup
    dsimp only
    rw [hmerge]
  constructor
  · rw [h1, h2]
    refine ⟨_, rfl, ?_⟩
    refine ⟨gcInsertedMem ef db.nextId mc kind proj now, ?_, rfl, rfl, rfl, rfl⟩
    apply mem_foldl_deletes
    · rw [rebuildLinks_memories]
      exact List.mem_append_right _ (List.mem_singleton.mpr rfl)
    · intro q hq
      exact fun h => hids q (List.mem_of_mem_take hq) h.symm
  · exact mergeMemoriesE_ok_shape _ kind proj mc (by simpa using hlen) hmerge

theorem gc_merge_inserted_item_shape_witness :
    (∃ dbF : Store,
      gcMergeGroup efZero c5db "2026-02-01T00:00:00+00:00"
          [(0, "alpha beta fix"), (1, "gamma delta fix"), (2, "epsilon zeta fix")]
          "bug" (some "p") 10 =
        Except.ok (gcInsertedMem efZero c5db.nextId c5str "bug" (some "p")
          "2026-02-01T00:00:00+00:00", false, dbF) ∧
      (∃ m ∈ dbF.memories, m.content = c5str ∧ m.kind = "bug" ∧
        m.tags = ["merged"] ∧ m.importance = 3)) ∧
    startsWithL c5str.data (projMark (some "p") ++ "[MERGED] " ++
      kindLabel "bug" ++ " related to: " ++
      subjectOf (([(0, "alpha beta fix"), (1, "gamma delta fix"),
        (2, "epsilon zeta fix")].take 10).map
          (fun q => q.2))).data = true :=
  gc_merge_inserted_item_shape efZero c5db "2026-02-01T00:00:00+00:00"
    [(0, "alpha beta fix"), (1, "gamma delta fix"), (2, "epsilon zeta fix")]
    "bug" (some "p") 10 c5str (by decide) (by decide) (by decide) (by decide)

/-- C4 counterexample: the bulk path performs no kind validation; an item
of kind banana is stored as-is (one row added, none skipped, no error). -/
theorem bulk_add_unknown_kind_stored :
    ((addMemoriesBulk efZero ⟨[], [], [], 0⟩ "2026-01-01T00:00:00+00:00"
        [c4item]).1.map (fun m => (m.content, m.kind))) =
      [("totally new fact", "banana")] ∧
    ((addMemoriesBulk efZero ⟨[], [], [], 0⟩ "2026-01-01T00:00:00+00:00"
        [c4item]).2.2.2.memories.map (fun m => m.kind)) = ["banana"] ∧
    (addMemoriesBulk efZero ⟨[], [], [], 0⟩ "2026-01-01T00:00:00+00:00"
        [c4item]).2.2.1 = 0 := by
  refine ⟨by decide, by decide, by decide⟩

/-- The insert path of add_memory, when no duplicate is found. -/
theorem addMemory_insert_eq (ef : String → List Frac) (db : Store)
    (now content kind : String) (proj : Option String) (tags : List String)
    (source : String) (importance : Int) (exp? meta : Option String)
    (hdup : findDuplicate db content proj = none) :
    addMemory ef db now content kind proj tags source importance exp? meta =
      ⟨freshMem ef db.nextId content kind proj tags source importance exp? meta now,
        false,
        rebuildLinks
          (insStore db
            (freshMem ef db.nextId content kind proj tags source importance exp? meta now))
          (freshMem ef db.nextId content kind proj tags source importance exp? meta now)⟩ := by
  unfold addMemory
  rw [hdup]
  rfl

/-- The merge path of add_memory, when a duplicate whose content is at
least as long is found: a partial update with the existing content, the
tag union and the unclamped maximum importance. -/
theorem addMemory_merge_eq (ef : String → List Frac) (db : Store)
    (now content kind : String) (proj : Option String) (tags : List String)
    (source : String) (importance : Int) (exp? meta : Option String)
    (existing : Memory)
    (hdup : findDuplicate db content proj = some existing)
    (hlen : byteLenL content.data ≤ byteLenL existing.content.data) :
    addMemory ef db now content kind proj tags source importance exp? meta =
      ⟨(updateMemoryFull ef db now existing.id (some existing.content) none
          (some (mergeTags existing.tags tags))
          (some (maxI importance existing.importance)) exp?).1.getD existing,
        true,
        (updateMemoryFull ef db now existing.id (some existing.content) none
          (some (mergeTags existing.tags tags))
          (some (maxI importance existing.importance)) exp?).2⟩ := by
  have hcond : ¬ (byteLenL content.data > byteLenL existing.content.data) :=
    Nat.not_lt.mpr hlen
  unfold addMemory
  rw [hdup]
  simp [hcond]

/-- Mapping a function that fixes every old row and filtering with a
predicate false on every old row and true on the image of the new row
leaves exactly one row. -/
theorem filter_count_one_of (l : List Memory) (m1 : Memory)
    (f : Memory → Memory) (q : Memory → Bool)
    (hfix : ∀ x ∈ l, f x = x) (hq : ∀ x ∈ l, q x = false)
    (hqm : q (f m1) = true) :
    (((l ++ [m1]).map f).filter q).length = 1 := by
  rw [List.map_append, map_self_of_fix f l hfix, List.filter_append]
  rw [List.filter_eq_nil_iff.mpr (fun a ha => by simp [hq a ha])]
  simp [hqm]

/-- C1: two successive add calls with the same content in the same
project scope, starting from a store without a near-duplicate of that
content in the scope, fewer than 200 rows in the scope, and no id clash
with the fresh counter: the first call inserts, the second merges, the
merged row keeps the content, carries the union of the two tag lists
preserving the existing order, stores the clamped maximum of the two
importances, and the final store holds exactly one row with that content
in the scope. -/
theorem dedup_add_twice
    (ef : String → List Frac) (db : Store) (now1 now2 c kind1 kind2 : String)
    (proj : Option String) (tags1 tags2 : List String) (src1 src2 : String)
    (imp1 imp2 : Int) (exp1 exp2 meta1 meta2 : Option String)
    (o1 o2 : AddOut)
    (ho1 : addMemory ef db now1 c kind1 proj tags1 src1 imp1 exp1 meta1 = o1)
    (ho2 : addMemory ef o1.store now2 c kind2 proj tags2 src2 imp2 exp2 meta2 = o2)
    (h1 : ∀ m ∈ db.memories, scopeEqB proj m = true →
      dupHitB (normalizeStr c) m = false)
    (h2 : (db.memories.filter (scopeEqB proj)).length ≤ 199)
    (h3 : ∀ m ∈ db.memories, m.id ≠ db.nextId) :
    o1.merged = false ∧ o2.merged = true ∧
    o2.mem.content = c ∧
    o2.mem.tags = mergeTags tags1 tags2 ∧
    (∀ t, t ∈ o2.mem.tags ↔ t ∈ tags1 ∨ t ∈ tags2) ∧
    o2.mem.importance = clampI (maxI imp1 imp2) ∧
    (o2.store.memories.filter
      (fun m => m.content == c && scopeEqB proj m)).length = 1 := by
  subst ho2
  subst ho1
  have hdup1 : findDuplicate db c proj = none :=
    findDuplicate_eq_none db c proj h1
  rw [addMemory_insert_eq ef db now1 c kind1 proj tags1 src1 imp1 exp1 meta1 hdup1]
  set m1 := freshMem ef db.nextId c kind1 proj tags1 src1 imp1 exp1 meta1 now1 with hm1
  set store1 := rebuildLinks (insStore db m1) m1 with hst1
  have hcontent1 : m1.content = c := rfl
  have hid1 : m1.id = db.nextId := rfl
  have htags1 : m1.tags = tags1 := rfl
  have himp1 : m1.importance = clampI imp1 := rfl
  have hproj1 : m1.project = proj := rfl
  have hmem1 : store1.memories = db.memories ++ [m1] := by
    rw [hst1, rebuildLinks_memories]
    rfl
  have hscope1 : scopeEqB proj m1 = true := by
    cases proj <;> simp [scopeEqB, hproj1]
  have hfilter1 : (db.memories ++ [m1]).filter (scopeEqB proj) =
      db.memories.filter (scopeEqB proj) ++ [m1] := by
    rw [List.filter_append]
    simp [hscope1]
  have hdup2 : findDuplicate store1 c proj = some m1 := by
    rw [findDuplicate]
    rw [hmem1, hfilter1]
    have hlone : ([m1] : List Memory).length = 1 := rfl
    have hlen2 : (sortByB (fun a b => strLeB b.updatedAt a.updatedAt)
        (db.memories.filter (scopeEqB proj) ++ [m1])).length ≤ 200 := by
      rw [length_sortByB, List.length_append, hlone]
      omega
    rw [List.take_of_length_le hlen2]
    apply find?_of_unique
    · exact (mem_sortByB _ _ _).mpr
        (List.mem_append_right _ (List.mem_singleton.mpr rfl))
    · rw [dupHitB, hcontent1]
      exact similarity_self_ge (normalizeStr c)
    · intro y hy hpy
      have hy1 := (mem_sortByB _ _ _).mp hy
      rcases List.mem_append.mp hy1 with hyl | hyr
      · have hym := List.mem_filter.mp hyl
        rw [h1 y hym.1 hym.2] at hpy
        cases hpy
      · exact List.mem_singleton.mp hyr
  have hget : getMemory store1 m1.id = some m1 := by
    rw [getMemory, hmem1, find?_append_of_none]
    · simp
    · intro x hx
      simp [hid1, h3 x hx]
  have hlenle : byteLenL c.data ≤ byteLenL m1.content.data :=
    le_of_eq (by rw [hcontent1])
  have hmerge2 := addMemory_merge_eq ef store1 now2 c kind2 proj tags2 src2
    imp2 exp2 meta2 m1 hdup2 hlenle
  have hupd := updateMemoryFull_eq ef store1 now2 m1.id (some m1.content) none
    (some (mergeTags m1.tags tags2)) (some (maxI imp2 m1.importance)) exp2 m1 hget
  refine ⟨rfl, ?_⟩
  rw [hmerge2, hupd]
  dsimp only
  simp only [Option.getD_some]
  refine ⟨by trivial, hcontent1, by rw [htags1], ?_, ?_, ?_⟩
  · intro t
    rw [htags1]
    exact mem_mergeTags tags2 tags1 t
  · rw [himp1]
    exact clampI_maxI imp1 imp2
  · rw [rebuildLinks_memories]
    dsimp only
    rw [hmem1]
    apply filter_count_one_of
    · intro x hx
      have hne : (x.id == m1.id) = false := by
        simp [hid1, h3 x hx]
      simp [hne]
    · intro x hx
      cases hs : scopeEqB proj x with
      | false => simp [hs]
      | true =>
        have hcne := content_ne_of_not_dupHit c x (h1 x hx hs)
        simp [hcne]
    · cases proj <;> simp [scopeEqB, hcontent1, hproj1]

theorem dedup_add_twice_witness :
    (∀ m ∈ c1db.memories, scopeEqB none m = true →
        dupHitB (normalizeStr "alpha beta") m = false) ∧
    (c1db.memories.filter (scopeEqB none)).length ≤ 199 ∧
    (∀ m ∈ c1db.memories, m.id ≠ c1db.nextId) ∧
    (c1o1.merged = false ∧ c1o2.merged = true ∧
      c1o2.mem.content = "alpha beta" ∧
      c1o2.mem.tags = mergeTags ["t1"] ["t2", "t1"] ∧
      (∀ t, t ∈ c1o2.mem.tags ↔ t ∈ ["t1"] ∨ t ∈ ["t2", "t1"]) ∧
      c1o2.mem.importance = clampI (maxI 7 2) ∧
      (c1o2.store.memories.filter
        (fun m => m.content == "alpha beta" && scopeEqB none m)).length = 1) :=
  ⟨by decide, by decide, by decide,
    dedup_add_twice efZero c1db "2025-01-01T00:00:00+00:00"
      "2025-01-02T00:00:00+00:00" "alpha beta" "note" "note" none ["t1"]
      ["t2", "t1"] "cursor" "cursor" 7 2 none none none none c1o1 c1o2 rfl rfl
      (by decide) (by decide) (by decide)⟩

end MemoryPilot
